import Mathlib

/-!
Verification development for `src/packages/component/src/lib/colors.ts`
of the embedding-atlas repository.

The module under verification is a set of pure functions over color
palettes.  We embed it shallowly:

* JavaScript numbers are modelled by `ℚ`.  The only irrational-valued
  operations the code performs (`Math.sqrt`, `Math.atan2`, `Math.pow`)
  are external library calls whose exact values no verified property
  depends on; they are passed in as an explicit `ExtMath` record of
  functions, so every theorem quantifies over their behaviour (adding
  the mild hypotheses, such as non-negativity of `sqrt`, that the real
  functions satisfy).
* Color strings produced by the palette functions are modelled by the
  inductive `ColorStr` (hex literals kept verbatim; the template string
  `hsl(h, s%, l%)` kept as its three numeric components).
* The final `d3-color` conversion `hcl(h, c, l).formatHex()` in the
  spatial generator is an external library call applied pointwise to
  the computed hue/chroma/lightness triple; we keep the triple (`Hcl`)
  as the output, since every property of interest is about the triples
  and the list structure.
* JavaScript `%` on numbers is remainder truncated toward zero
  (`jsMod`), and `x / 0` is `NaN`/`Infinity` in JavaScript while `ℚ`
  gives `0`; theorems whose meaning would be affected carry an explicit
  non-vanishing hypothesis for the divisor.
-/

/-- A color value produced by the palette functions: either one of the
hex string literals of the fixed tables, or the CSS template string
`hsl(h, s%, l%)` represented by its three numeric components. -/
inductive ColorStr where
  | hex (s : String)
  | hsl (h s l : ℚ)
deriving DecidableEq

/-- The fixed 10-color table `category10` from colors.ts. -/
def category10 : List ColorStr :=
  [.hex "#1f77b4", .hex "#ff7f0e", .hex "#2ca02c", .hex "#d62728", .hex "#9467bd",
   .hex "#8c564b", .hex "#e377c2", .hex "#7f7f7f", .hex "#bcbd22", .hex "#17becf"]

/-- The fixed 20-color table `category20` from colors.ts. -/
def category20 : List ColorStr :=
  [.hex "#1f77b4", .hex "#aec7e8", .hex "#ff7f0e", .hex "#ffbb78", .hex "#2ca02c",
   .hex "#98df8a", .hex "#d62728", .hex "#ff9896", .hex "#9467bd", .hex "#c5b0d5",
   .hex "#8c564b", .hex "#c49c94", .hex "#e377c2", .hex "#f7b6d2", .hex "#7f7f7f",
   .hex "#c7c7c7", .hex "#bcbd22", .hex "#dbdb8d", .hex "#17becf", .hex "#9edae5"]

/-- Truncation toward zero on `ℚ`, the rounding JavaScript uses for the
remainder operator `%`. -/
def jsTrunc (q : ℚ) : ℤ := if 0 ≤ q then ⌊q⌋ else -⌊-q⌋

/-- JavaScript remainder `a % m` on numbers: `a - m * trunc (a / m)`. -/
def jsMod (a m : ℚ) : ℚ := a - m * (jsTrunc (a / m) : ℚ)

/-- Embedding of `defaultCategoryColors` (colors.ts lines 110-132):
clamp `count` to a minimum of 1; return a prefix of `category10` for
`count ≤ 10`, a prefix of `category20` for `count ≤ 20`, and otherwise
the full `category20` followed by procedurally generated HSL colors for
the indices `i = 20, …, count - 1`. -/
def defaultCategoryColors (count : ℤ) : List ColorStr :=
  let count := if count < 1 then 1 else count
  if count ≤ (category10.length : ℤ) then
    category10.take count.toNat
  else if count ≤ (category20.length : ℤ) then
    category20.take count.toNat
  else
    category20 ++ (List.range' category20.length (count.toNat - category20.length)).map
      (fun (i : ℕ) => ColorStr.hsl (jsMod ((i : ℚ) * 360 / (count : ℚ)) 360)
        (if i % 2 = 0 then 70 else 85) (45 + ((i % 3 : ℕ) : ℚ) * 10))

/-- Normalized sRGB sample `{r, g, b, a}`, each component intended to
lie in `[0, 1]`. -/
structure NormRgb where
  r : ℚ
  g : ℚ
  b : ℚ
  a : ℚ
deriving DecidableEq

/-- Output record of the external d3-color parser `rgb(str)`: 8-bit
channel values (0-255) plus an opacity in `[0, 1]`. -/
structure Rgb255 where
  r : ℚ
  g : ℚ
  b : ℚ
  opacity : ℚ
deriving DecidableEq

/-- Embedding of `parseColorNormalizedRgb` (colors.ts lines 220-223).
The external string parser `rgb` from d3-color is passed in as a
function; the code under verification only destructures its result and
divides each channel by 255, passing opacity through. -/
def parseColorNormalizedRgb (rgbParse : String → Rgb255) (str : String) : NormRgb :=
  let p := rgbParse str
  ⟨p.r / 255.0, p.g / 255.0, p.b / 255.0, p.opacity⟩

/-- The external math library calls made by `spatialCategoryColors`:
`Math.sqrt`, `Math.atan2` and `Math.pow`.  They are modelled as
unconstrained rational functions; theorems add the properties of the
real functions they need (for example `0 ≤ sqrt q`). -/
structure ExtMath where
  sqrt : ℚ → ℚ
  atan2 : ℚ → ℚ → ℚ
  pow : ℚ → ℚ → ℚ

/-- The options record of `spatialCategoryColors`, with the default
values from the destructuring on colors.ts line 153. -/
structure SpatialOptions where
  hueShift : ℚ := 0
  minLightness : ℚ := 20
  radiusWeightPower : ℚ := 1
deriving DecidableEq

/-- One entry of the `polarCoords` array (colors.ts lines 174-180):
radius and angle relative to the bounding-box center, together with the
original coordinates. -/
structure Polar where
  radius : ℚ
  theta : ℚ
  x : ℚ
  y : ℚ
deriving DecidableEq

/-- A hue/chroma/lightness triple, the argument of the final external
conversion `hcl(hue, chroma, lightness).formatHex()` on colors.ts
lines 212-213.  The conversion is an external pointwise map, so the
triple is the output of the embedded spatial generator. -/
structure Hcl where
  hue : ℚ
  chroma : ℚ
  lightness : ℚ
deriving DecidableEq

/-- Bounding-box center of the positions (colors.ts lines 160-171):
fold of min/max over all coordinates, then the box midpoint.  The
source seeds the folds with `±Infinity`; on a non-empty list that
equals folding from the first element, and the empty case is
unreachable (guarded on line 155). -/
def centerOf (positions : List (ℚ × ℚ)) : ℚ × ℚ :=
  match positions with
  | [] => (0, 0)
  | (x, y) :: rest =>
    let minX := (rest.map Prod.fst).foldl min x
    let maxX := (rest.map Prod.fst).foldl max x
    let minY := (rest.map Prod.snd).foldl min y
    let maxY := (rest.map Prod.snd).foldl max y
    (minX + (maxX - minX) / 2, minY + (maxY - minY) / 2)

/-- Polar coordinates of one position relative to the center
(colors.ts lines 174-180). -/
def polarOf (em : ExtMath) (center : ℚ × ℚ) (p : ℚ × ℚ) : Polar :=
  let dx := p.1 - center.1
  let dy := p.2 - center.2
  ⟨em.sqrt (dx * dx + dy * dy), em.atan2 dy dx, p.1, p.2⟩

/-- The `polarCoords` array (colors.ts line 174). -/
def polarCoordsOf (em : ExtMath) (positions : List (ℚ × ℚ)) : List Polar :=
  positions.map (polarOf em (centerOf positions))

/-- Stable insertion of a point into a theta-sorted list: the point
goes before the first element with theta greater than or equal to its
own that appears later in the original array.  Together with
`sortByTheta` this models `[...polarCoords].sort((a, b) => a.theta - b.theta)`
(colors.ts line 183); ECMAScript `Array.prototype.sort` is stable. -/
def insertByTheta (p : Polar) : List Polar → List Polar
  | [] => [p]
  | q :: qs => if p.theta ≤ q.theta then p :: q :: qs else q :: insertByTheta p qs

/-- Stable sort of the polar coordinates by ascending theta
(colors.ts line 183). -/
def sortByTheta : List Polar → List Polar
  | [] => []
  | p :: ps => insertByTheta p (sortByTheta ps)

/-- The `sorted` array (colors.ts line 183). -/
def sortedOf (em : ExtMath) (positions : List (ℚ × ℚ)) : List Polar :=
  sortByTheta (polarCoordsOf em positions)

/-- The `weights` array (colors.ts line 184):
`Math.pow(radius, radiusWeightPower)` over the sorted order. -/
def weightsOf (em : ExtMath) (opts : SpatialOptions) (positions : List (ℚ × ℚ)) : List ℚ :=
  (sortedOf em positions).map (fun p => em.pow p.radius opts.radiusWeightPower)

/-- Running sums, modelling the `cumSum` accumulation of
colors.ts lines 185-189. -/
def cumulative (acc : ℚ) : List ℚ → List ℚ
  | [] => []
  | w :: ws => (acc + w) :: cumulative (acc + w) ws

/-- The `cumulativeWeights` array (colors.ts lines 186-189). -/
def cumulativeWeightsOf (em : ExtMath) (opts : SpatialOptions) (positions : List (ℚ × ℚ)) : List ℚ :=
  cumulative 0 (weightsOf em opts positions)

/-- The `totalWeight` value (colors.ts line 190): the final value of
`cumSum`, i.e. the sum of all weights. -/
def totalWeightOf (em : ExtMath) (opts : SpatialOptions) (positions : List (ℚ × ℚ)) : ℚ :=
  (weightsOf em opts positions).sum

/-- The `maxRadius` value (colors.ts line 204):
`Math.max(...polarCoords.map((p) => p.radius))`.  The source computes
it inside the loop; the value does not depend on the loop variable.
The empty case is unreachable (guarded on line 155). -/
def maxRadiusOf (em : ExtMath) (positions : List (ℚ × ℚ)) : ℚ :=
  match (polarCoordsOf em positions).map Polar.radius with
  | [] => 0
  | r :: rs => rs.foldl max r

/-- The `normalizedWeight` of one point (colors.ts lines 196-197):
locate the point in the sorted array by `(theta, radius)` equality via
`findIndex`, then divide its cumulative weight by the total weight.
When the point is not found (`sortedIndex < 0` in the source) the value
is 0.  Note: in JavaScript a zero `totalWeight` makes this `NaN`; over
`ℚ` division by zero yields 0, so theorems about the value carry a
`totalWeightOf ≠ 0` hypothesis. -/
def normalizedWeightOf (em : ExtMath) (opts : SpatialOptions) (positions : List (ℚ × ℚ))
    (coord : Polar) : ℚ :=
  match (sortedOf em positions).findIdx?
      (fun s => decide (s.theta = coord.theta ∧ s.radius = coord.radius)) with
  | some i => (cumulativeWeightsOf em opts positions).getD i 0 / totalWeightOf em opts positions
  | none => 0

/-- The hue computation (colors.ts lines 198-200):
`normalizedWeight * 360 + hueShift`, JavaScript remainder by 360, then
wrap negatives into `[0, 360)`. -/
def hueFor (opts : SpatialOptions) (normalizedWeight : ℚ) : ℚ :=
  let hue := normalizedWeight * 360 + opts.hueShift
  let hue := jsMod hue 360
  if hue < 0 then hue + 360 else hue

/-- The `normalizedRadius` of one point (colors.ts line 205), with the
divide-by-zero guard: `maxRadius > 0 ? radius / maxRadius : 0`. -/
def normalizedRadiusOf (em : ExtMath) (positions : List (ℚ × ℚ)) (coord : Polar) : ℚ :=
  if maxRadiusOf em positions > 0 then coord.radius / maxRadiusOf em positions else 0

/-- The body of the output loop (colors.ts lines 194-214) for one
element `coord` of `polarCoords`: hue from the angular weight, chroma
`normalizedRadius * 80 + 20`, lightness
`(1 - normalizedRadius) * (80 - minLightness) + minLightness`. -/
def pointColor (em : ExtMath) (opts : SpatialOptions) (positions : List (ℚ × ℚ))
    (coord : Polar) : Hcl :=
  let nw := normalizedWeightOf em opts positions coord
  let nr := normalizedRadiusOf em positions coord
  ⟨hueFor opts nw, nr * 80 + 20, (1 - nr) * (80 - opts.minLightness) + opts.minLightness⟩

/-- The color assigned to one input position: the loop body applied to
its polar coordinates. -/
def colorOfPosition (em : ExtMath) (opts : SpatialOptions) (positions : List (ℚ × ℚ))
    (p : ℚ × ℚ) : Hcl :=
  pointColor em opts positions (polarOf em (centerOf positions) p)

/-- Embedding of `spatialCategoryColors` (colors.ts lines 144-217).
The loop `for (const coord of polarCoords)` pushes one color per entry
of `polarCoords`, in that order, so the function is the map of the loop
body over `polarCoords`. -/
def spatialCategoryColors (em : ExtMath) (categoryCount : ℤ)
    (categoryPositions : List (ℚ × ℚ)) (opts : SpatialOptions) : List Hcl :=
  if categoryCount = 0 ∨ categoryPositions = [] then []
  else (polarCoordsOf em categoryPositions).map (pointColor em opts categoryPositions)

/-- The hue component, as a function of the colormap parameter
`t ∈ [0, 1)`, of the circular colormap used by the spatial generator:
the HCL hue circle `t ↦ hcl(360 * t, C, L)` (the perceptually uniform
hue wheel of the HCL space, whose endpoints `t = 0` and `t = 1`
coincide).  Its color at parameter `t` has hue `360 * t`. -/
def circularColormapHue (t : ℚ) : ℚ := 360 * t

/-- Wrapping of a parameter into `[0, 1)`: the fractional part. -/
def wrap01 (t : ℚ) : ℚ := Int.fract t

/-- A concrete external-math record for witnesses with all points
coincident: it agrees with the real library at every argument those
inputs produce (`Math.sqrt 0 = 0`, `Math.atan2 0 0 = 0`,
`Math.pow 0 1 = 0`). -/
def em0 : ExtMath := ⟨fun _ => 0, fun _ _ => 0, fun _ _ => 0⟩

/-- A concrete external-math record for witnesses whose points lie at
distance 0 or 1 from the center: `sqrt` is the identity (correct on 0
and 1), `pow` returns the base (correct for exponent 1 on 0 and 1), and
`atan2` returns its second argument (an arbitrary total stand-in for
the external angle function; no witness depends on its values). -/
def em1 : ExtMath := ⟨fun q => q, fun _ dx => dx, fun r _ => r⟩

lemma length_category10 : category10.length = 10 := rfl

lemma length_category20 : category20.length = 20 := rfl

/-- Branch lemma: a count already clamped below 1 behaves like 1. -/
lemma defaultCategoryColors_clamp (n : ℤ) (h : n < 1) :
    defaultCategoryColors n = defaultCategoryColors 1 := by
  unfold defaultCategoryColors
  simp only [if_pos h, if_neg (by omega : ¬ (1 : ℤ) < 1)]

/-- Branch lemma: for `1 ≤ n ≤ 10` the result is a prefix of
`category10`. -/
lemma defaultCategoryColors_low (n : ℤ) (h1 : 1 ≤ n) (h2 : n ≤ 10) :
    defaultCategoryColors n = category10.take n.toNat := by
  unfold defaultCategoryColors
  have h10 : n ≤ (category10.length : ℤ) := by rw [length_category10]; exact_mod_cast h2
  simp only [if_neg (by omega : ¬ n < 1), if_pos h10]

/-- Branch lemma: for `11 ≤ n ≤ 20` the result is a prefix of
`category20`. -/
lemma defaultCategoryColors_mid (n : ℤ) (h1 : 11 ≤ n) (h2 : n ≤ 20) :
    defaultCategoryColors n = category20.take n.toNat := by
  unfold defaultCategoryColors
  have h10 : ¬ n ≤ (category10.length : ℤ) := by rw [length_category10]; omega
  have h20 : n ≤ (category20.length : ℤ) := by rw [length_category20]; exact_mod_cast h2
  simp only [if_neg (by omega : ¬ n < 1), if_neg h10, if_pos h20]

/-- Branch lemma: for `n > 20` the result is `category20` followed by
the procedural HSL extension. -/
lemma defaultCategoryColors_high (n : ℤ) (h : 20 < n) :
    defaultCategoryColors n = category20 ++ (List.range' 20 (n.toNat - 20)).map
      (fun (i : ℕ) => ColorStr.hsl (jsMod ((i : ℚ) * 360 / (n : ℚ)) 360)
        (if i % 2 = 0 then 70 else 85) (45 + ((i % 3 : ℕ) : ℚ) * 10)) := by
  unfold defaultCategoryColors
  have h10 : ¬ n ≤ (category10.length : ℤ) := by rw [length_category10]; omega
  simp only [if_neg (by omega : ¬ n < 1), if_neg h10, length_category20]
  rw [if_neg (show ¬ n ≤ ((20 : ℕ) : ℤ) by push_cast; omega)]

/-- C1: `defaultCategoryColors n` returns exactly `max n 1` colors; for
`n ∈ [1, 10]` it is the first `n` entries of the 10-color table, for
`n ∈ [11, 20]` the first `n` entries of the 20-color table; for
`n > 20` its first 20 entries are exactly the 20-color table; and a
non-positive `n` is treated as 1. -/
theorem defaultCategoryColors_spec (n : ℤ) :
    ((defaultCategoryColors n).length : ℤ) = max n 1
    ∧ (1 ≤ n → n ≤ 10 → defaultCategoryColors n = category10.take n.toNat)
    ∧ (11 ≤ n → n ≤ 20 → defaultCategoryColors n = category20.take n.toNat)
    ∧ (20 < n → (defaultCategoryColors n).take 20 = category20)
    ∧ (n ≤ 0 → defaultCategoryColors n = defaultCategoryColors 1) := by
  refine ⟨?_, fun h1 h2 => defaultCategoryColors_low n h1 h2,
    fun h1 h2 => defaultCategoryColors_mid n h1 h2, ?_, ?_⟩
  · rcases lt_or_le n 1 with h | h
    · rw [defaultCategoryColors_clamp n h, defaultCategoryColors_low 1 le_rfl (by omega)]
      rw [List.length_take, length_category10]
      omega
    · rcases le_or_lt n 10 with h2 | h2
      · rw [defaultCategoryColors_low n h h2, List.length_take, length_category10]
        omega
      · rcases le_or_lt n 20 with h3 | h3
        · rw [defaultCategoryColors_mid n (by omega) h3, List.length_take, length_category20]
          omega
        · rw [defaultCategoryColors_high n h3]
          rw [List.length_append, List.length_map, List.length_range', length_category20]
          omega
  · intro h
    rw [defaultCategoryColors_high n h]
    rw [show (20 : ℕ) = category20.length from rfl, List.take_left]
  · intro h
    exact defaultCategoryColors_clamp n (by omega)

/-- Witness for C1: the theorem applied at the concrete counts 5, 15,
25 and 0, discharging every hypothesis. -/
theorem defaultCategoryColors_spec_witness :
    defaultCategoryColors 5 = category10.take 5
    ∧ defaultCategoryColors 15 = category20.take 15
    ∧ (defaultCategoryColors 25).take 20 = category20
    ∧ defaultCategoryColors 0 = defaultCategoryColors 1 :=
  ⟨(defaultCategoryColors_spec 5).2.1 (by omega) (by omega),
   (defaultCategoryColors_spec 15).2.2.1 (by omega) (by omega),
   (defaultCategoryColors_spec 25).2.2.2.1 (by omega),
   (defaultCategoryColors_spec 0).2.2.2.2 (by omega)⟩

/-- C9: crossing the 10-to-11 boundary changes the colors of already
assigned categories: for every count in `[11, 20]` the first 10 output
entries differ from `defaultCategoryColors 10`; entry 1 is `#ff7f0e`
for count 10 but `#aec7e8` for count 11, because the 10-color table is
not a prefix of the 20-color table. -/
theorem defaultCategoryColors_boundary (n : ℤ) (h1 : 11 ≤ n) (h2 : n ≤ 20) :
    (defaultCategoryColors n).take 10 ≠ defaultCategoryColors 10
    ∧ (defaultCategoryColors 10)[1]? = some (ColorStr.hex "#ff7f0e")
    ∧ (defaultCategoryColors 11)[1]? = some (ColorStr.hex "#aec7e8") := by
  refine ⟨?_, by decide, by decide⟩
  rw [defaultCategoryColors_mid n h1 h2, List.take_take,
    show min 10 n.toNat = 10 by omega]
  decide

/-- Witness for C9: the theorem applied at count 11. -/
theorem defaultCategoryColors_boundary_witness :
    (defaultCategoryColors 11).take 10 ≠ defaultCategoryColors 10 :=
  (defaultCategoryColors_boundary 11 (by omega) (by omega)).1

lemma jsMod_288_360 : jsMod 288 360 = 288 := by
  unfold jsMod jsTrunc
  rw [show (288 : ℚ) / 360 = 4 / 5 by norm_num, if_pos (by norm_num : (0 : ℚ) ≤ 4 / 5),
    show ⌊(4 : ℚ) / 5⌋ = 0 by rw [Int.floor_eq_iff]; norm_num]
  norm_num

/-- Shared evaluation: entry 20 of `defaultCategoryColors 25` has hue
288, saturation 70 and lightness `45 + (20 mod 3) * 10 = 65`. -/
lemma defaultCategoryColors_25_at_20 :
    (defaultCategoryColors 25)[20]? = some (ColorStr.hsl 288 70 65) := by
  rw [defaultCategoryColors_high 25 (by omega)]
  rw [List.getElem?_append_right (by rw [length_category20])]
  rw [length_category20, List.getElem?_map]
  rw [List.getElem?_eq_getElem (show 20 - 20 < (List.range' 20 ((25 : ℤ).toNat - 20)).length by
    rw [List.length_range']; omega)]
  rw [List.getElem_range']
  norm_num [jsMod_288_360]

/-- C5 (amended): for every `count > 20`, entry `i ∈ [20, count)` of
`defaultCategoryColors count` is the HSL color with hue
`(i * 360 / count) mod 360`, saturation 70 for even `i` and 85 for odd
`i`, and lightness `45 + (i mod 3) * 10`; in particular entry 20 for
count 25 has hue 288, saturation 70 and lightness 65 (not 45: index 20
has `20 mod 3 = 2`). -/
theorem defaultCategoryColors_extension :
    (∀ (n : ℤ) (i : ℕ), 20 < n → 20 ≤ i → (i : ℤ) < n →
      (defaultCategoryColors n)[i]? = some (ColorStr.hsl (jsMod ((i : ℚ) * 360 / (n : ℚ)) 360)
        (if i % 2 = 0 then 70 else 85) (45 + ((i % 3 : ℕ) : ℚ) * 10)))
    ∧ (defaultCategoryColors 25)[20]? = some (ColorStr.hsl 288 70 65) := by
  refine ⟨?_, defaultCategoryColors_25_at_20⟩
  intro n i hn hi hin
  rw [defaultCategoryColors_high n hn]
  rw [List.getElem?_append_right (by rw [length_category20]; omega)]
  rw [length_category20, List.getElem?_map]
  rw [List.getElem?_eq_getElem (show i - 20 < (List.range' 20 (n.toNat - 20)).length by
    rw [List.length_range']; omega)]
  rw [List.getElem_range']
  rw [show 20 + 1 * (i - 20) = i by omega]
  rfl

/-- Witness for C5: the general formula applied at count 25, index 20,
discharging every hypothesis. -/
theorem defaultCategoryColors_extension_witness :
    (defaultCategoryColors 25)[20]? = some (ColorStr.hsl
      (jsMod (((20 : ℕ) : ℚ) * 360 / ((25 : ℤ) : ℚ)) 360)
      (if (20 : ℕ) % 2 = 0 then 70 else 85) (45 + (((20 : ℕ) % 3 : ℕ) : ℚ) * 10)) :=
  defaultCategoryColors_extension.1 25 20 (by omega) (by omega) (by omega)

/-- C5 counterexample: the claim asserts entry 20 of
`defaultCategoryColors 25` has lightness 45; the code gives lightness
`45 + (20 mod 3) * 10 = 65`. -/
theorem defaultCategoryColors_extension_counterexample :
    (defaultCategoryColors 25)[20]? ≠ some (ColorStr.hsl 288 70 45) := by
  rw [defaultCategoryColors_25_at_20]
  norm_num

/-- C6: `parseColorNormalizedRgb` divides each 8-bit channel produced
by the external parser by 255 and passes opacity through unchanged; on
the documented d3-color outputs for `"#ff0000"` (255, 0, 0, opacity 1)
and `"rgba(0,128,255,0.5)"` (0, 128, 255, opacity 0.5) it returns
`{r: 1, g: 0, b: 0, a: 1}` and `{r: 0, g: 128/255, b: 1, a: 0.5}`. -/
theorem parseColorNormalizedRgb_spec (rgbParse : String → Rgb255)
    (hred : rgbParse "#ff0000" = ⟨255, 0, 0, 1⟩)
    (hrgba : rgbParse "rgba(0,128,255,0.5)" = ⟨0, 128, 255, 1 / 2⟩) :
    (∀ s, parseColorNormalizedRgb rgbParse s =
      ⟨(rgbParse s).r / 255, (rgbParse s).g / 255, (rgbParse s).b / 255, (rgbParse s).opacity⟩)
    ∧ parseColorNormalizedRgb rgbParse "#ff0000" = ⟨1, 0, 0, 1⟩
    ∧ parseColorNormalizedRgb rgbParse "rgba(0,128,255,0.5)" = ⟨0, 128 / 255, 1, 1 / 2⟩ := by
  refine ⟨fun s => by unfold parseColorNormalizedRgb; norm_num, ?_, ?_⟩
  · unfold parseColorNormalizedRgb
    rw [hred]
    norm_num
  · unfold parseColorNormalizedRgb
    rw [hrgba]
    norm_num

/-- A stub for the external parser, agreeing with d3-color `rgb` on the
two strings the witness uses. -/
def rgbParseStub (s : String) : Rgb255 :=
  if s = "#ff0000" then ⟨255, 0, 0, 1⟩ else ⟨0, 128, 255, 1 / 2⟩

/-- Witness for C6: the theorem applied to a concrete parser function,
discharging both hypotheses. -/
theorem parseColorNormalizedRgb_spec_witness :
    parseColorNormalizedRgb rgbParseStub "#ff0000" = ⟨1, 0, 0, 1⟩
    ∧ parseColorNormalizedRgb rgbParseStub "rgba(0,128,255,0.5)" = ⟨0, 128 / 255, 1, 1 / 2⟩ :=
  have h := parseColorNormalizedRgb_spec rgbParseStub (by simp [rgbParseStub]) (by simp [rgbParseStub])
  ⟨h.2.1, h.2.2⟩

/-- Helper: the degenerate guard of `spatialCategoryColors`. -/
lemma spatialCategoryColors_of_degenerate (em : ExtMath) (cc : ℤ)
    (positions : List (ℚ × ℚ)) (opts : SpatialOptions) (h : cc = 0 ∨ positions = []) :
    spatialCategoryColors em cc positions opts = [] := by
  unfold spatialCategoryColors
  rw [if_pos h]

/-- Helper: outside the degenerate case, the output is the map of the
per-position color over the input list, in input order. -/
lemma spatialCategoryColors_eq_map (em : ExtMath) (cc : ℤ)
    (positions : List (ℚ × ℚ)) (opts : SpatialOptions) (hcc : cc ≠ 0) :
    spatialCategoryColors em cc positions opts
      = positions.map (colorOfPosition em opts positions) := by
  rcases eq_or_ne positions [] with h | h
  · rw [h, spatialCategoryColors_of_degenerate em cc [] opts (Or.inr rfl)]
    rfl
  · unfold spatialCategoryColors
    rw [if_neg (by simp [hcc, h])]
    unfold polarCoordsOf
    rw [List.map_map]
    rfl

/-- C8: the output is empty whenever `categoryCount` is 0 or the
positions array is empty, for every value of the other argument and of
the options. -/
theorem spatialCategoryColors_degenerate (em : ExtMath) (cc : ℤ)
    (positions : List (ℚ × ℚ)) (opts : SpatialOptions) (h : cc = 0 ∨ positions = []) :
    spatialCategoryColors em cc positions opts = [] :=
  spatialCategoryColors_of_degenerate em cc positions opts h

/-- Witness for C8: the theorem applied with count 0 and a non-empty
positions list, and with count 5 and an empty positions list. -/
theorem spatialCategoryColors_degenerate_witness :
    spatialCategoryColors em0 0 [(1, 2)] ⟨0, 20, 1⟩ = []
    ∧ spatialCategoryColors em0 5 [] ⟨0, 20, 1⟩ = [] :=
  ⟨spatialCategoryColors_degenerate em0 0 [(1, 2)] ⟨0, 20, 1⟩ (Or.inl rfl),
   spatialCategoryColors_degenerate em0 5 [] ⟨0, 20, 1⟩ (Or.inr rfl)⟩

/-- C7: for a single input position and a nonzero category count the
generator returns exactly one color.  The embedded function is total,
so no exception is possible: the zero radius and the undefined angle
only flow into the external `atan2`/division operations, all modelled
as total functions, with the division guards shown separately. -/
theorem spatialCategoryColors_single (em : ExtMath) (cc : ℤ) (x y : ℚ)
    (opts : SpatialOptions) (hcc : cc ≠ 0) :
    (spatialCategoryColors em cc [(x, y)] opts).length = 1 := by
  rw [spatialCategoryColors_eq_map em cc [(x, y)] opts hcc, List.length_map]
  rfl

/-- Witness for C7: the theorem at count 1 and position `(0, 0)`. -/
theorem spatialCategoryColors_single_witness :
    (spatialCategoryColors em0 1 [(0, 0)] ⟨0, 20, 1⟩).length = 1 :=
  spatialCategoryColors_single em0 1 0 0 ⟨0, 20, 1⟩ (by omega)

/-- C4: the output sequence is the per-position color map over the
input list, so the i-th output color is a function of the i-th input
position (and the global context), in input order, independent of the
internal angular sort; in particular output and input have the same
length. -/
theorem spatialCategoryColors_input_order (em : ExtMath) (cc : ℤ)
    (positions : List (ℚ × ℚ)) (opts : SpatialOptions) (hcc : cc ≠ 0) :
    spatialCategoryColors em cc positions opts
      = positions.map (colorOfPosition em opts positions)
    ∧ (spatialCategoryColors em cc positions opts).length = positions.length := by
  refine ⟨spatialCategoryColors_eq_map em cc positions opts hcc, ?_⟩
  rw [spatialCategoryColors_eq_map em cc positions opts hcc, List.length_map]

/-- Witness for C4: the theorem at count 2 and two concrete
positions. -/
theorem spatialCategoryColors_input_order_witness :
    spatialCategoryColors em0 2 [(0, 0), (2, 0)] ⟨0, 20, 1⟩
      = [(0, 0), (2, 0)].map (colorOfPosition em0 ⟨0, 20, 1⟩ [(0, 0), (2, 0)])
    ∧ (spatialCategoryColors em0 2 [(0, 0), (2, 0)] ⟨0, 20, 1⟩).length = 2 :=
  spatialCategoryColors_input_order em0 2 [(0, 0), (2, 0)] ⟨0, 20, 1⟩ (by omega)

/-- C10: two input positions with identical coordinates receive
identical output colors (stated for inputs having a point of positive
radius; it holds for all inputs of the `ℚ` model). -/
theorem spatialCategoryColors_identical (em : ExtMath) (cc : ℤ)
    (positions : List (ℚ × ℚ)) (opts : SpatialOptions) (i j : ℕ)
    (_hrad : ∃ p ∈ polarCoordsOf em positions, 0 < p.radius)
    (hij : positions[i]? = positions[j]?) :
    (spatialCategoryColors em cc positions opts)[i]?
      = (spatialCategoryColors em cc positions opts)[j]? := by
  rcases eq_or_ne cc 0 with h | h
  · rw [spatialCategoryColors_of_degenerate em cc positions opts (Or.inl h)]
    simp
  · rw [spatialCategoryColors_eq_map em cc positions opts h, List.getElem?_map,
      List.getElem?_map, hij]

/-- Witness for C10: for three concrete positions of which two are
identical (and all of positive radius), the outputs at the two
identical positions coincide. -/
theorem spatialCategoryColors_identical_witness :
    (∃ p ∈ polarCoordsOf em1 [(0, 0), (2, 0), (2, 0)], 0 < p.radius)
    ∧ (spatialCategoryColors em1 3 [(0, 0), (2, 0), (2, 0)] ⟨0, 20, 1⟩)[1]?
      = (spatialCategoryColors em1 3 [(0, 0), (2, 0), (2, 0)] ⟨0, 20, 1⟩)[2]? := by
  have hrad : ∃ p ∈ polarCoordsOf em1 [(0, 0), (2, 0), (2, 0)], 0 < p.radius := by
    refine ⟨⟨1, -1, 0, 0⟩, ?_, by norm_num⟩
    have h : polarCoordsOf em1 [(0, 0), (2, 0), (2, 0)]
        = [⟨1, -1, 0, 0⟩, ⟨1, 1, 2, 0⟩, ⟨1, 1, 2, 0⟩] := by
      unfold polarCoordsOf polarOf centerOf em1
      norm_num
    rw [h]
    simp
  exact ⟨hrad,
    spatialCategoryColors_identical em1 3 [(0, 0), (2, 0), (2, 0)] ⟨0, 20, 1⟩ 1 2 hrad rfl⟩

/-- The seed of a max-fold is below the fold. -/
lemma le_foldl_max (l : List ℚ) (a : ℚ) : a ≤ l.foldl max a := by
  induction l generalizing a with
  | nil => exact le_rfl
  | cons x xs ih => exact le_trans (le_max_left a x) (ih (max a x))

/-- Every member of a list is below its max-fold. -/
lemma mem_le_foldl_max : ∀ (l : List ℚ) (a x : ℚ), x ∈ l → x ≤ l.foldl max a
  | [], _, _, hx => absurd hx (List.not_mem_nil _)
  | y :: ys, a, x, hx => by
    rcases List.mem_cons.mp hx with h | h
    · rw [h]
      exact le_trans (le_max_right a y) (le_foldl_max ys (max a y))
    · exact mem_le_foldl_max ys (max a y) x h

/-- The radius of every computed polar coordinate is below
`maxRadius`. -/
lemma radius_le_maxRadiusOf (em : ExtMath) (positions : List (ℚ × ℚ)) (c : Polar)
    (hc : c ∈ polarCoordsOf em positions) : c.radius ≤ maxRadiusOf em positions := by
  have hmem : c.radius ∈ (polarCoordsOf em positions).map Polar.radius :=
    List.mem_map_of_mem Polar.radius hc
  unfold maxRadiusOf
  split
  · rename_i heq
    rw [heq] at hmem
    exact absurd hmem (List.not_mem_nil _)
  · rename_i r rs heq
    rw [heq] at hmem
    rcases List.mem_cons.mp hmem with h | h
    · rw [h]
      exact le_foldl_max rs r
    · exact mem_le_foldl_max rs r _ h

/-- With a non-negative `sqrt`, every computed radius is
non-negative. -/
lemma radius_nonneg (em : ExtMath) (positions : List (ℚ × ℚ)) (c : Polar)
    (hsqrt : ∀ q, 0 ≤ em.sqrt q) (hc : c ∈ polarCoordsOf em positions) : 0 ≤ c.radius := by
  unfold polarCoordsOf at hc
  rcases List.mem_map.mp hc with ⟨p, _, rfl⟩
  exact hsqrt _

/-- The guarded `normalizedRadius` is non-negative. -/
lemma normalizedRadiusOf_nonneg (em : ExtMath) (positions : List (ℚ × ℚ)) (c : Polar)
    (hsqrt : ∀ q, 0 ≤ em.sqrt q) (hc : c ∈ polarCoordsOf em positions) :
    0 ≤ normalizedRadiusOf em positions c := by
  unfold normalizedRadiusOf
  split
  · rename_i h
    exact div_nonneg (radius_nonneg em positions c hsqrt hc) (le_of_lt h)
  · exact le_rfl

/-- The guarded `normalizedRadius` is at most 1. -/
lemma normalizedRadiusOf_le_one (em : ExtMath) (positions : List (ℚ × ℚ)) (c : Polar)
    (hc : c ∈ polarCoordsOf em positions) : normalizedRadiusOf em positions c ≤ 1 := by
  unfold normalizedRadiusOf
  split
  · rename_i h
    exact (div_le_one h).mpr (radius_le_maxRadiusOf em positions c hc)
  · norm_num

/-- C3 (amended): a maximum radius of exactly 0 does not divide by
zero — the guard defaults `normalizedRadius` to 0 — and the lightness
of every output color is at least `min minLightness 80` (hence at least
`minLightness` whenever `minLightness ≤ 80`, which holds for the
default 20; for `minLightness > 80` the bound 80 is attained by a point
at the center, refuting the unconditional claim). -/
theorem spatialCategoryColors_guard_lightness (em : ExtMath) (cc : ℤ)
    (positions : List (ℚ × ℚ)) (opts : SpatialOptions)
    (hsqrt : ∀ q, 0 ≤ em.sqrt q) :
    (maxRadiusOf em positions = 0 → ∀ c, normalizedRadiusOf em positions c = 0)
    ∧ ∀ c ∈ spatialCategoryColors em cc positions opts,
        min opts.minLightness 80 ≤ c.lightness := by
  constructor
  · intro h c
    unfold normalizedRadiusOf
    rw [h, if_neg (lt_irrefl 0)]
  · intro c hc
    rcases eq_or_ne cc 0 with h0 | h0
    · rw [spatialCategoryColors_of_degenerate em cc positions opts (Or.inl h0)] at hc
      exact absurd hc (List.not_mem_nil c)
    · rw [spatialCategoryColors_eq_map em cc positions opts h0] at hc
      rcases List.mem_map.mp hc with ⟨p, hp, rfl⟩
      have hmem : polarOf em (centerOf positions) p ∈ polarCoordsOf em positions :=
        List.mem_map_of_mem (polarOf em (centerOf positions)) hp
      have h1 : 0 ≤ normalizedRadiusOf em positions (polarOf em (centerOf positions) p) :=
        normalizedRadiusOf_nonneg em positions _ hsqrt hmem
      have h2 : normalizedRadiusOf em positions (polarOf em (centerOf positions) p) ≤ 1 :=
        normalizedRadiusOf_le_one em positions _ hmem
      set nr := normalizedRadiusOf em positions (polarOf em (centerOf positions) p) with hnr
      show min opts.minLightness 80
        ≤ (1 - nr) * (80 - opts.minLightness) + opts.minLightness
      rcases le_total opts.minLightness 80 with h | h
      · rw [min_eq_left h]
        have hprod := mul_nonneg (by linarith : (0 : ℚ) ≤ 1 - nr)
          (by linarith : (0 : ℚ) ≤ 80 - opts.minLightness)
        linarith
      · rw [min_eq_right h]
        have he : (1 - nr) * (80 - opts.minLightness) + opts.minLightness
            = 80 + nr * (opts.minLightness - 80) := by ring
        have hprod := mul_nonneg h1 (by linarith : (0 : ℚ) ≤ opts.minLightness - 80)
        linarith

/-- Witness for C3: the theorem applied to a single coincident point
with the default options, discharging the `sqrt` hypothesis. -/
theorem spatialCategoryColors_guard_lightness_witness :
    (∀ q, 0 ≤ em0.sqrt q)
    ∧ (maxRadiusOf em0 [(0, 0)] = 0 → ∀ c, normalizedRadiusOf em0 [(0, 0)] c = 0)
    ∧ ∀ c ∈ spatialCategoryColors em0 1 [(0, 0)] ⟨0, 20, 1⟩,
        min (20 : ℚ) 80 ≤ c.lightness := by
  have h := spatialCategoryColors_guard_lightness em0 1 [(0, 0)] ⟨0, 20, 1⟩ (fun q => le_rfl)
  exact ⟨fun q => le_rfl, h.1, h.2⟩

/-- Shared evaluation: the single point `(0, 0)` has maximum radius 0
under `em0`. -/
lemma maxRadiusOf_em0_single : maxRadiusOf em0 [((0 : ℚ), (0 : ℚ))] = 0 := by
  unfold maxRadiusOf polarCoordsOf polarOf centerOf em0
  norm_num

/-- Shared evaluation: with a single point at the origin and
`minLightness = 100`, the produced lightness is 80. -/
lemma spatialCategoryColors_lightness_em0 :
    (spatialCategoryColors em0 1 [(0, 0)] ⟨0, 100, 1⟩).map Hcl.lightness = [80] := by
  rw [spatialCategoryColors_eq_map em0 1 [(0, 0)] ⟨0, 100, 1⟩ (by omega)]
  simp only [List.map_cons, List.map_nil]
  have hnr : normalizedRadiusOf em0 [(0, 0)] (polarOf em0 (centerOf [(0, 0)]) (0, 0)) = 0 := by
    unfold normalizedRadiusOf
    rw [maxRadiusOf_em0_single, if_neg (lt_irrefl 0)]
  show [(colorOfPosition em0 ⟨0, 100, 1⟩ [(0, 0)] (0, 0)).lightness] = [80]
  unfold colorOfPosition pointColor
  rw [hnr]
  norm_num

/-- C3 counterexample: with `minLightness = 100` (> 80) and a single
point, the output lightness is 80, strictly below the `minLightness`
option, refuting the unconditional lower bound of the claim. -/
theorem spatialCategoryColors_minLightness_counterexample :
    ¬ ∀ c ∈ spatialCategoryColors em0 1 [(0, 0)] ⟨0, 100, 1⟩, (100 : ℚ) ≤ c.lightness := by
  intro h
  have hm : (80 : ℚ) ∈ (spatialCategoryColors em0 1 [(0, 0)] ⟨0, 100, 1⟩).map Hcl.lightness := by
    rw [spatialCategoryColors_lightness_em0]
    simp
  rcases List.mem_map.mp hm with ⟨c, hc, hlight⟩
  have hge := h c hc
  rw [hlight] at hge
  linarith

/-- The hue produced by the code equals `360 * fract t` where `t` is
the normalized weight shifted by `hueShift / 360`: the JavaScript
remainder by 360 followed by the negative-wrap equals scaling the
fractional part of the parameter. -/
lemma hueFor_eq_fract (opts : SpatialOptions) (w : ℚ) :
    hueFor opts w = 360 * Int.fract (w + opts.hueShift / 360) := by
  simp only [hueFor, jsMod, jsTrunc]
  have ha : w * 360 + opts.hueShift = 360 * (w + opts.hueShift / 360) := by ring
  rw [ha]
  set t := w + opts.hueShift / 360
  have hdiv : (360 : ℚ) * t / 360 = t := by ring
  rw [hdiv]
  rcases le_or_lt 0 t with hpos | hneg
  · rw [if_pos hpos]
    have hv : (360 : ℚ) * t - 360 * ((⌊t⌋ : ℤ) : ℚ) = 360 * Int.fract t := by
      rw [Int.fract]
      ring
    rw [hv, if_neg (not_lt.mpr (mul_nonneg (by norm_num) (Int.fract_nonneg t)))]
  · rw [if_neg (not_le.mpr hneg)]
    rcases eq_or_ne (Int.fract t) 0 with hf | hf
    · have hfn : Int.fract (-t) = 0 := by rw [Int.fract_neg_eq_zero]; exact hf
      have hfloor : ((⌊-t⌋ : ℤ) : ℚ) = -t := by
        have h1 := Int.self_sub_fract (-t)
        rw [hfn] at h1
        linarith
      have hv : (360 : ℚ) * t - 360 * (((-⌊-t⌋ : ℤ) : ℤ) : ℚ) = 0 := by
        push_cast
        rw [hfloor]
        ring
      rw [hv, if_neg (lt_irrefl 0), hf]
      ring
    · have hfneg : Int.fract (-t) = 1 - Int.fract t := Int.fract_neg hf
      have hfloor : ((⌊-t⌋ : ℤ) : ℚ) = -t - (1 - Int.fract t) := by
        have h1 := Int.self_sub_fract (-t)
        rw [hfneg] at h1
        linarith
      have hv : (360 : ℚ) * t - 360 * (((-⌊-t⌋ : ℤ) : ℤ) : ℚ) = 360 * (Int.fract t - 1) := by
        push_cast
        push_cast at hfloor
        rw [hfloor]
        ring
      rw [hv, if_pos (by nlinarith [Int.fract_lt_one t] : (360 : ℚ) * (Int.fract t - 1) < 0)]
      ring

/-- C2: the hue assigned to each point is the hue of the circular
colormap color at the parameter `normalizedWeight + hueShift / 360`
wrapped into `[0, 1)`.  The circular colormap the code uses is the HCL
hue circle `t ↦ hcl(360 t, C, L)` (see `circularColormapHue`); the
`totalWeight ≠ 0` hypothesis excludes the all-coincident case, in which
the JavaScript value is `NaN`. -/
theorem spatialCategoryColors_hue_colormap (em : ExtMath) (cc : ℤ)
    (positions : List (ℚ × ℚ)) (opts : SpatialOptions) (i : ℕ) (p : ℚ × ℚ)
    (hcc : cc ≠ 0) (_htw : totalWeightOf em opts positions ≠ 0)
    (hp : positions[i]? = some p) :
    ∃ c, (spatialCategoryColors em cc positions opts)[i]? = some c
      ∧ c.hue = circularColormapHue (wrap01
          (normalizedWeightOf em opts positions (polarOf em (centerOf positions) p)
            + opts.hueShift / 360)) := by
  refine ⟨colorOfPosition em opts positions p, ?_, ?_⟩
  · rw [spatialCategoryColors_eq_map em cc positions opts hcc, List.getElem?_map, hp]
    rfl
  · show (pointColor em opts positions (polarOf em (centerOf positions) p)).hue = _
    unfold circularColormapHue wrap01
    exact hueFor_eq_fract opts _

/-- Shared evaluation: two distinct concrete points at distance 1 from
their bounding-box center have total weight 2 under `em1`. -/
lemma totalWeightOf_em1_pair : totalWeightOf em1 ⟨0, 20, 1⟩ [(0, 0), (2, 0)] = 2 := by
  have hpolar : polarCoordsOf em1 [(0, 0), (2, 0)] = [⟨1, -1, 0, 0⟩, ⟨1, 1, 2, 0⟩] := by
    unfold polarCoordsOf polarOf centerOf em1
    norm_num
  unfold totalWeightOf weightsOf sortedOf
  rw [hpolar]
  show ((sortByTheta [⟨1, -1, 0, 0⟩, ⟨1, 1, 2, 0⟩]).map (fun p => em1.pow p.radius 1)).sum = 2
  have hsort : sortByTheta [⟨1, -1, 0, 0⟩, ⟨1, 1, 2, 0⟩] = [⟨1, -1, 0, 0⟩, ⟨1, 1, 2, 0⟩] := by
    norm_num [sortByTheta, insertByTheta]
  rw [hsort]
  show ((1 : ℚ) + (1 + 0)) = 2
  norm_num

/-- Witness for C2: the theorem at two concrete positions under `em1`,
with every hypothesis discharged. -/
theorem spatialCategoryColors_hue_colormap_witness :
    totalWeightOf em1 ⟨0, 20, 1⟩ [(0, 0), (2, 0)] ≠ 0
    ∧ ∃ c, (spatialCategoryColors em1 2 [(0, 0), (2, 0)] ⟨0, 20, 1⟩)[0]? = some c
      ∧ c.hue = circularColormapHue (wrap01
          (normalizedWeightOf em1 ⟨0, 20, 1⟩ [(0, 0), (2, 0)]
              (polarOf em1 (centerOf [(0, 0), (2, 0)]) (0, 0))
            + (⟨0, 20, 1⟩ : SpatialOptions).hueShift / 360)) := by
  have htw : totalWeightOf em1 ⟨0, 20, 1⟩ [(0, 0), (2, 0)] ≠ 0 := by
    rw [totalWeightOf_em1_pair]
    norm_num
  exact ⟨htw, spatialCategoryColors_hue_colormap em1 2 [(0, 0), (2, 0)] ⟨0, 20, 1⟩ 0 (0, 0)
    (by omega) htw rfl⟩
